import Mathlib

/-!
# Verification of the LinkedIn H1B sponsor detector core

A shallow embedding of the two core components of the extension:

* the text classifier `Analyzer.analyze` of `src/analyzer.js` (regex
  catalogue matching, negation-window suppression, tiered decision), and
* the page-monitor logic `processJobPage` / `checkForJobChange` /
  `hashJobDescription` of `src/content.js`.

JS strings are modelled as `List Char`; JS regex literals (all carrying
the `i` flag) are modelled by the `Re` type together with a greedy
backtracking matcher that mirrors ECMAScript semantics for the
constructs actually used by the catalogue (`\b`, `\s+`, literal chars,
`?` on chars/groups, alternation, `.*`, `[^.]{0,20}`, `$`).
-/

namespace H1B

/-- JS `\w` word character: `[A-Za-z0-9_]`. -/
def isWordChar (c : Char) : Bool :=
  ('a' ≤ c && c ≤ 'z') || ('A' ≤ c && c ≤ 'Z') || ('0' ≤ c && c ≤ '9') || c = '_'

/-- JS `\s` whitespace (the cases relevant to BMP text). -/
def jsSpace (c : Char) : Bool :=
  c = ' ' || c = '\t' || c = '\n' || c = '\r' || c = '\x0b' || c = '\x0c' || c = ' '

/-- JS `.` (dot, no `s` flag): any char except line terminators. -/
def jsDot (c : Char) : Bool :=
  !(c = '\n' || c = '\r' || c = ' ' || c = ' ')

/-- The class `[^.]`: any char other than a literal dot. -/
def nonDot (c : Char) : Bool := c ≠ '.'

/-- Case-insensitive character comparison (all catalogue regexes carry `/i`). -/
def ciEq (a b : Char) : Bool := a.toLower = b.toLower

/-- Apostrophe character, used in the literals `can't`, `doesn't`, `won't`. -/
def apos : Char := Char.ofNat 39

/-- Regex abstract syntax for the constructs used by `src/analyzer.js`. -/
inductive Re where
  /-- matches the empty string -/
  | eps : Re
  /-- a literal character, compared case-insensitively -/
  | ch (c : Char) : Re
  /-- a character class -/
  | cls (p : Char → Bool) : Re
  /-- concatenation -/
  | seq (a b : Re) : Re
  /-- alternation, left-preferring as in ECMAScript -/
  | alt (a b : Re) : Re
  /-- greedy `?` -/
  | opt (a : Re) : Re
  /-- greedy `*` -/
  | star (a : Re) : Re
  /-- greedy `{0,n}` over a character class -/
  | bound (p : Char → Bool) (n : Nat) : Re
  /-- the word-boundary assertion `\b` -/
  | wb : Re
  /-- the end anchor `$` (no `m` flag anywhere in the source) -/
  | eos : Re

/-- Structural size, used only to compute a sufficient fuel for the matcher. -/
def reSize : Re → Nat
  | .eps => 1
  | .ch _ => 1
  | .cls _ => 1
  | .seq a b => 1 + reSize a + reSize b
  | .alt a b => 1 + reSize a + reSize b
  | .opt a => 1 + reSize a
  | .star a => 1 + reSize a
  | .bound _ n => 1 + n
  | .wb => 1
  | .eos => 1

/-- `\b` holds at position `i` of `t` iff exactly one of the adjacent
positions holds a `\w` character (ECMAScript 22.2.2.6). -/
def wordBoundaryAt (t : List Char) (i : Nat) : Bool :=
  let before : Bool := if i = 0 then false else (t.get? (i - 1)).any isWordChar
  let after : Bool := (t.get? i).any isWordChar
  before != after

/-- Fueled CPS backtracking matcher.  `mtch f t re i k` attempts to match
`re` in `t` starting at index `i` and passes the end index to the
continuation `k`; alternatives are tried in the greedy, left-preferring
order ECMAScript prescribes, so the first success is the JS match.
The fuel bounds the nesting depth; `matchAt` below supplies enough fuel
for any of the catalogue's regexes. -/
def mtch : Nat → List Char → Re → Nat → (Nat → Option Nat) → Option Nat
  | 0, _, _, _, _ => none
  | f + 1, t, re, i, k =>
    match re with
    | .eps => k i
    | .ch c =>
      match t.get? i with
      | some d => if ciEq c d then k (i + 1) else none
      | none => none
    | .cls p =>
      match t.get? i with
      | some d => if p d then k (i + 1) else none
      | none => none
    | .seq a b => mtch f t a i (fun j => mtch f t b j k)
    | .alt a b =>
      match mtch f t a i k with
      | some r => some r
      | none => mtch f t b i k
    | .opt a =>
      match mtch f t a i k with
      | some r => some r
      | none => k i
    | .star a =>
      match mtch f t a i (fun j => if i < j then mtch f t (.star a) j k else none) with
      | some r => some r
      | none => k i
    | .bound p n =>
      match n, t.get? i with
      | m + 1, some d =>
        if p d then
          match mtch f t (.bound p m) (i + 1) k with
          | some r => some r
          | none => k i
        else k i
      | _, _ => k i
    | .wb => if wordBoundaryAt t i then k i else none
    | .eos => if i = t.length then k i else none

/-- Fuel sufficient for `mtch` on `re` over `t`: nesting depth is bounded
by the regex size times the number of consumed characters plus slack. -/
def enoughFuel (re : Re) (t : List Char) : Nat :=
  (reSize re + 2) * (t.length + 2) + 16

/-- Attempt a match of `re` at index `i` of `t`; returns the length of the
(JS, greedy first) match when one exists. -/
def matchAt (re : Re) (t : List Char) (i : Nat) : Option Nat :=
  (mtch (enoughFuel re t) t re i some).map (fun j => j - i)

/-- Whether `re` matches somewhere in `t` (JS `RegExp.test` / `String.match ≠ null`). -/
def searchRe (re : Re) (t : List Char) : Bool :=
  (List.range (t.length + 1)).any (fun i => (matchAt re t i).isSome)

/-- One element of the array built by `findMatches` in `src/analyzer.js`:
`{ text: match[0], index: match.index, length: match[0].length }`. -/
structure MatchInfo where
  text : List Char
  index : Nat
  length : Nat
deriving DecidableEq, Repr

/-- The scanning loop of `exec` with the `g` flag: try indices from `i`
upward; on a match record it and resume at the end of the match.  Fuel is
`t.length + 2`, enough because every step advances the position (no
catalogue regex matches the empty string). -/
def scanFrom : Nat → Re → List Char → Nat → List MatchInfo
  | 0, _, _, _ => []
  | f + 1, re, t, i =>
    if i > t.length then []
    else
      match matchAt re t i with
      | some len => ⟨(t.drop i).take len, i, len⟩ :: scanFrom f re t (i + max len 1)
      | none => scanFrom f re t (i + 1)

/-- `findMatches` of `src/analyzer.js`: all successive matches of a
pattern in `text`, in order. -/
def findMatches (re : Re) (t : List Char) : List MatchInfo :=
  scanFrom (t.length + 2) re t 0

/-! ## The pattern catalogue of `src/analyzer.js` -/

/-- Sequence of case-insensitive literal characters. -/
def litChars (cs : List Char) : Re :=
  cs.foldr (fun c r => Re.seq (Re.ch c) r) Re.eps

/-- A literal word, e.g. `sponsorship`. -/
def lit (s : String) : Re := litChars s.toList

/-- `\s+`. -/
def wsp : Re := Re.seq (Re.cls jsSpace) (Re.star (Re.cls jsSpace))

/-- Words joined by `\s+`. -/
def phraseCore : List String → Re
  | [] => Re.eps
  | [w] => lit w
  | w :: ws => Re.seq (lit w) (Re.seq wsp (phraseCore ws))

/-- `\bw₁\s+w₂\s+…\s+wₙ\b`, the shape of most catalogue entries. -/
def phrase (ws : List String) : Re :=
  Re.seq Re.wb (Re.seq (phraseCore ws) Re.wb)

/-- Join regex fragments by concatenation. -/
def reSeqs (rs : List Re) : Re := rs.foldr Re.seq Re.eps

/-- `U\.?S\.?`. -/
def usRe : Re :=
  reSeqs [Re.ch 'U', Re.opt (Re.ch '.'), Re.ch 'S', Re.opt (Re.ch '.')]

/-- `D\.?O\.?D\.?`. -/
def dodRe : Re :=
  reSeqs [Re.ch 'D', Re.opt (Re.ch '.'), Re.ch 'O', Re.opt (Re.ch '.'),
    Re.ch 'D', Re.opt (Re.ch '.')]

/-- `(a\s+)?`. -/
def optA : Re := Re.opt (Re.seq (lit "a") wsp)

/-- `can't` (apostrophe spelled via its code point). -/
def litCant : Re := litChars ['c', 'a', 'n', apos, 't']

/-- `doesn't`. -/
def litDoesnt : Re := litChars ['d', 'o', 'e', 's', 'n', apos, 't']

/-- `won't`. -/
def litWont : Re := litChars ['w', 'o', 'n', apos, 't']

/-- Strong positive indicators (`STRONG_POSITIVE_PATTERNS`, analyzer.js:10-40). -/
def STRONG_POSITIVE_PATTERNS : List Re :=
  [ phrase ["H1B", "sponsorship"]
  , phrase ["H1B", "visa", "sponsorship"]
  , phrase ["H-1B", "sponsorship"]
  , phrase ["visa", "sponsorship"]
  , phrase ["work", "visa", "sponsorship"]
  , phrase ["employment", "visa", "sponsorship"]
  , phrase ["sponsor", "H1B"]
  , phrase ["sponsor", "visa"]
  , phrase ["provide", "sponsorship"]
  , phrase ["sponsorship", "available"]
  , phrase ["sponsorship", "provided"]
  , phrase ["offers", "sponsorship"]
  , phrase ["willing", "to", "sponsor"]
  , phrase ["will", "sponsor"]
  , phrase ["can", "sponsor"]
  , phrase ["sponsor", "for", "international", "candidates"]
  , phrase ["international", "sponsorship"]
  , phrase ["work", "authorization", "sponsorship"]
  , phrase ["employment", "authorization", "sponsorship"]
  , phrase ["TN", "visa"]
  , phrase ["E-3", "visa"]
  , phrase ["O-1", "visa"]
  , phrase ["L-1", "visa"]
  , phrase ["J-1", "visa"]
  , phrase ["OPT", "to", "H1B"]
  , phrase ["pleased", "to", "offer", "visa", "sponsorship"]
  , phrase ["pleased", "to", "offer", "sponsorship"]
  , phrase ["offer", "visa", "sponsorship"]
  , phrase ["offer", "sponsorship"] ]

/-- Moderate positive indicators (`MODERATE_POSITIVE_PATTERNS`, analyzer.js:43-51). -/
def MODERATE_POSITIVE_PATTERNS : List Re :=
  [ phrase ["open", "to", "international", "candidates"]
  , phrase ["international", "applicants", "welcome"]
  , phrase ["global", "talent"]
  , phrase ["diverse", "candidates"]
  , phrase ["international", "experience", "preferred"]
  , phrase ["relocation", "assistance"]
  , phrase ["immigration", "support"] ]

/-- Strong negative indicators (`STRONG_NEGATIVE_PATTERNS`, analyzer.js:54-97). -/
def STRONG_NEGATIVE_PATTERNS : List Re :=
  [ -- `\bU\.?S\.?\s+citizens?\s+only\b`
    reSeqs [Re.wb, usRe, wsp, lit "citizen", Re.opt (Re.ch 's'), wsp, lit "only", Re.wb]
  , -- `\bU\.?S\.?\s+citizenship\s+required\b`
    reSeqs [Re.wb, usRe, wsp, lit "citizenship", wsp, lit "required", Re.wb]
  , -- `\bmust\s+be\s+(a\s+)?U\.?S\.?\s+citizen\b`
    reSeqs [Re.wb, lit "must", wsp, lit "be", wsp, optA, usRe, wsp, lit "citizen", Re.wb]
  , -- `\bmust\s+be\s+(a\s+)?United\s+States\s+citizen\b`
    reSeqs [Re.wb, lit "must", wsp, lit "be", wsp, optA, lit "United", wsp, lit "States",
      wsp, lit "citizen", Re.wb]
  , -- `\bU\.?S\.?\s+citizenship\s+only\b`
    reSeqs [Re.wb, usRe, wsp, lit "citizenship", wsp, lit "only", Re.wb]
  , phrase ["no", "sponsorship"]
  , phrase ["does", "not", "sponsor"]
  , phrase ["cannot", "sponsor"]
  , -- `\bcan't\s+sponsor\b`
    reSeqs [Re.wb, litCant, wsp, lit "sponsor", Re.wb]
  , phrase ["unable", "to", "sponsor"]
  , -- `\bunable\s+to\s+sponsor.*work\s+visas?\b`
    reSeqs [Re.wb, lit "unable", wsp, lit "to", wsp, lit "sponsor", Re.star (Re.cls jsDot),
      lit "work", wsp, lit "visa", Re.opt (Re.ch 's'), Re.wb]
  , phrase ["not", "sponsoring"]
  , phrase ["sponsorship", "not", "available"]
  , phrase ["no", "visa", "sponsorship"]
  , phrase ["must", "have", "work", "authorization"]
  , phrase ["no", "visa", "support"]
  , phrase ["will", "not", "sponsor"]
  , phrase ["sponsorship", "not", "provided"]
  , -- `\bU\.?S\.?\s+work\s+authorization\s+required\b`
    reSeqs [Re.wb, usRe, wsp, lit "work", wsp, lit "authorization", wsp, lit "required", Re.wb]
  , phrase ["citizenship", "required"]
  , -- `\bU\.?S\.?\s+citizenship\s+mandatory\b`
    reSeqs [Re.wb, usRe, wsp, lit "citizenship", wsp, lit "mandatory", Re.wb]
  , phrase ["security", "clearance", "required"]
  , phrase ["DOD", "security", "clearance"]
  , -- `\bD\.?O\.?D\.?\s+security\s+clearance\b`
    reSeqs [Re.wb, dodRe, wsp, lit "security", wsp, lit "clearance", Re.wb]
  , -- `\beligible\s+to\s+obtain\s+(a\s+)?(DOD|D\.?O\.?D\.?|security)\s+clearance\b`
    reSeqs [Re.wb, lit "eligible", wsp, lit "to", wsp, lit "obtain", wsp, optA,
      Re.alt (lit "DOD") (Re.alt dodRe (lit "security")), wsp, lit "clearance", Re.wb]
  , phrase ["must", "be", "eligible", "for", "security", "clearance"]
  , phrase ["must", "obtain", "security", "clearance"]
  , phrase ["able", "to", "obtain", "security", "clearance"]
  , phrase ["clearance", "eligible"]
  , phrase ["security", "clearance", "eligible"]
  , -- `\bmust\s+possess\s+U\.?S\.?\s+citizenship\b`
    reSeqs [Re.wb, lit "must", wsp, lit "possess", wsp, usRe, wsp, lit "citizenship", Re.wb]
  , -- `\bITAR\s+requirements?\b`
    reSeqs [Re.wb, lit "ITAR", wsp, lit "requirement", Re.opt (Re.ch 's'), Re.wb]
  , phrase ["ITAR", "compliance"]
  , phrase ["ITAR", "eligible"]
  , phrase ["must", "be", "ITAR", "eligible"]
  , -- `\bU\.?S\.?\s+citizen\s+or\s+national\b`
    reSeqs [Re.wb, usRe, wsp, lit "citizen", wsp, lit "or", wsp, lit "national", Re.wb]
  , -- `\bU\.?S\.?\s+lawful\s+permanent\s+resident\b`
    reSeqs [Re.wb, usRe, wsp, lit "lawful", wsp, lit "permanent", wsp, lit "resident", Re.wb]
  , phrase ["green", "card", "holder"]
  , -- `\bexport\s+control\s+regulations?\b`
    reSeqs [Re.wb, lit "export", wsp, lit "control", wsp, lit "regulation", Re.opt (Re.ch 's'), Re.wb]
  , phrase ["Department", "of", "State", "authorization"] ]

/-- Moderate negative indicators (`MODERATE_NEGATIVE_PATTERNS`, analyzer.js:102-106). -/
def MODERATE_NEGATIVE_PATTERNS : List Re :=
  [ phrase ["no", "relocation", "assistance"]
  , phrase ["local", "candidates", "only"] ]

/-- Negation cues (`NEGATION_PATTERNS`, analyzer.js:109-118); each is
`\bcue\s+` with no trailing `\b`. -/
def NEGATION_PATTERNS : List Re :=
  [ reSeqs [Re.wb, lit "no", wsp]
  , reSeqs [Re.wb, lit "not", wsp]
  , reSeqs [Re.wb, litDoesnt, wsp]
  , reSeqs [Re.wb, lit "does", wsp, lit "not", wsp]
  , reSeqs [Re.wb, lit "cannot", wsp]
  , reSeqs [Re.wb, litCant, wsp]
  , reSeqs [Re.wb, lit "will", wsp, lit "not", wsp]
  , reSeqs [Re.wb, litWont, wsp] ]

/-! ## The classifier `Analyzer.analyze` (analyzer.js:127-280) -/

/-- `isNegated(text, matchIndex, matchLength)` (analyzer.js:127-142):
take the up-to-50 characters of context before the match, lowercased;
the match is negated when some negation cue occurs in that context
(`negPattern.test`) with at most 20 non-period characters between the
cue and the match start (`contextBefore.match(source + '[^.]{0,20}$')`).
The `matchLength` parameter is unused, exactly as in the source. -/
def isNegated (t : List Char) (matchIndex : Nat) (_matchLength : Nat) : Bool :=
  let contextBefore :=
    (((t.drop (matchIndex - 50)).take (matchIndex - (matchIndex - 50))).map Char.toLower)
  NEGATION_PATTERNS.any (fun p =>
    searchRe p contextBefore &&
      searchRe (Re.seq p (Re.seq (Re.bound nonDot 20) Re.eos)) contextBefore)

inductive Status where
  /-- `'yes'` -/
  | yes : Status
  /-- `'no'` -/
  | no : Status
  /-- `'unclear'` -/
  | unclear : Status
deriving DecidableEq, Repr

inductive Confidence where
  | low : Confidence
  | medium : Confidence
  | high : Confidence
deriving DecidableEq, Repr

/-- The `matchedKeywords` record accumulated in `analyze` (analyzer.js:185-190),
returned as the verdict's `details` field. -/
structure Details where
  strongPositive : List (List Char)
  moderatePositive : List (List Char)
  strongNegative : List (List Char)
  moderateNegative : List (List Char)
deriving DecidableEq, Repr

/-- The object returned by `analyze`.  For the invalid-input verdict the
source omits the `details` field (reading it yields `undefined`); it is
modelled here by four empty lists, which no caller distinguishes. -/
structure Verdict where
  status : Status
  score : Int
  confidence : Confidence
  matchedKeywords : List (List Char)
  message : String
  details : Details
deriving DecidableEq, Repr

/-- All matches of a list of patterns, in catalogue order then match order
(the nested `for` loops of analyzer.js:194-225). -/
def allMatches (pats : List Re) (t : List Char) : List MatchInfo :=
  pats.foldr (fun p acc => findMatches p t ++ acc) []

/-- The four evidence lists of `analyze` (analyzer.js:192-225): positive
tiers keep only matches that are not negated; negative tiers keep every
match unconditionally. -/
def detailsOf (t : List Char) : Details :=
  { strongPositive :=
      ((allMatches STRONG_POSITIVE_PATTERNS t).filter
        (fun m => !(isNegated t m.index m.length))).map MatchInfo.text
  , moderatePositive :=
      ((allMatches MODERATE_POSITIVE_PATTERNS t).filter
        (fun m => !(isNegated t m.index m.length))).map MatchInfo.text
  , strongNegative := (allMatches STRONG_NEGATIVE_PATTERNS t).map MatchInfo.text
  , moderateNegative := (allMatches MODERATE_NEGATIVE_PATTERNS t).map MatchInfo.text }

/-- The status/message/confidence cascade of analyzer.js:230-255. -/
def decideStatus (d : Details) : Status × String × Confidence :=
  if d.strongPositive.length > 0 then (.yes, "Sponsorship Available", .high)
  else if d.strongNegative.length > 0 then (.no, "No Sponsorship", .high)
  else if d.moderatePositive.length > 0 then (.yes, "Sponsorship Available", .medium)
  else if d.moderateNegative.length > 0 then (.no, "No Sponsorship", .medium)
  else (.yes, "Sponsorship Available", .low)

/-- The compatibility score cascade of analyzer.js:266-270 (note its branch
order differs from the status cascade). -/
def decideScore (d : Details) : Int :=
  if d.strongPositive.length > 0 then 3
  else if d.moderatePositive.length > 0 then 1
  else if d.strongNegative.length > 0 then -3
  else if d.moderateNegative.length > 0 then -1
  else 0

/-- Insertion-ordered deduplication, keeping the first occurrence: the
semantics of `[...new Set(arr)]` (analyzer.js:276). -/
def dedupFirst (seen : List (List Char)) : List (List Char) → List (List Char)
  | [] => []
  | x :: xs => if x ∈ seen then dedupFirst seen xs else x :: dedupFirst (x :: seen) xs

/-- `[...new Set(arr)]`. -/
def jsSetDedup (l : List (List Char)) : List (List Char) := dedupFirst [] l

/-- The concatenation `allMatchedKeywords` of analyzer.js:258-263. -/
def allKeywordsOf (d : Details) : List (List Char) :=
  d.strongPositive ++ d.moderatePositive ++ d.strongNegative ++ d.moderateNegative

/-- The verdict built for a usable (non-empty string) description. -/
def analyzeText (t : List Char) : Verdict :=
  let d := detailsOf t
  { status := (decideStatus d).1
  , score := decideScore d
  , confidence := (decideStatus d).2.2
  , matchedKeywords := jsSetDedup (allKeywordsOf d)
  , message := (decideStatus d).2.1
  , details := d }

/-- The verdict for unusable input (analyzer.js:175-181). -/
def unclearVerdict : Verdict :=
  { status := .unclear
  , score := 0
  , confidence := .low
  , matchedKeywords := []
  , message := "No job description found"
  , details := ⟨[], [], [], []⟩ }

/-- The JS value passed to `analyze`: `null`/`undefined`, a string
(modelled as its character list), or any non-string value. -/
inductive JSInput where
  | null : JSInput
  | str (s : List Char) : JSInput
  | nonString : JSInput
deriving DecidableEq

/-- `Analyzer.analyze` (analyzer.js:173-280).  The guard
`!jobDescription || typeof jobDescription !== 'string'` rejects `null`,
the empty string (falsy) and every non-string value.  Total: never throws. -/
def analyze : JSInput → Verdict
  | .null => unclearVerdict
  | .nonString => unclearVerdict
  | .str s => if s.isEmpty then unclearVerdict else analyzeText s

/-- The phrase the highlighter cites (highlighter.js:178-196, 107-117):
only for a `'no'` verdict, the first entry of the strong-negative
evidence when any exists, otherwise the first moderate-negative entry. -/
def citedPhrase (v : Verdict) : Option (List Char) :=
  if v.status = .no then
    if v.details.strongNegative.length > 0 then v.details.strongNegative.head?
    else v.details.moderateNegative.head?
  else none

/-! ## The page monitor of `src/content.js` -/

/-- JS `String.prototype.trim` on a character list. -/
def jsTrim (l : List Char) : List Char :=
  ((l.dropWhile jsSpace).reverse.dropWhile jsSpace).reverse

/-- JS falsiness of a `string|null` value: `null` and `''` are falsy. -/
def strFalsy : Option (List Char) → Bool
  | none => true
  | some t => t.isEmpty

/-- `hashJobDescription` (content.js:78-83): `null` for falsy input, else
the trimmed first-200-character preview, a `'|'`, and the decimal
rendering of the total length. -/
def hashJobDescription : Option (List Char) → Option (List Char)
  | none => none
  | some t =>
    if t.isEmpty then none
    else some (jsTrim (t.take 200) ++ '|' :: Nat.toDigits 10 t.length)

/-- The monitor's module-level state (content.js:9-12): the stored job
identity, whether the badge element is currently in the document, and the
re-entrancy flag. -/
structure MonitorState where
  currentJobId : Option String
  currentJobDescriptionHash : Option (List Char)
  badgePresent : Bool
  isProcessing : Bool
deriving DecidableEq, Repr

/-- What one synchronous check reads from the live page: whether the URL
is a LinkedIn job page, `extractJobId()`, and `extractJobDescription()`
(`extractJobDescription` never returns the empty string, but falsiness is
modelled faithfully anyway). -/
structure PageObs where
  onJobPage : Bool
  jobId : Option String
  description : Option (List Char)
deriving DecidableEq, Repr

/-- The outcome of one synchronous `processJobPage` invocation. -/
inductive MonAction where
  /-- returned without doing anything -/
  | noop : MonAction
  /-- `setTimeout(() => processJobPage(force), delayMs)` was scheduled -/
  | retryScheduled (delayMs : Nat) : MonAction
  /-- the description was analyzed and the badge injected/updated -/
  | reclassified : MonAction
deriving DecidableEq, Repr

/-- `processJobPage(force)` (content.js:138-206) as a step function from
monitor state and page observation to new state and action.  On the
reclassify path the source computes `Analyzer.analyze(description)` and
renders it; the badge is then present and the busy flag is cleared. -/
def processJobPage (force : Bool) (st : MonitorState) (obs : PageObs) :
    MonitorState × MonAction :=
  if st.isProcessing ∧ force = false then (st, .noop)
  else if obs.onJobPage = false then (st, .noop)
  else
    let descriptionHash := hashJobDescription obs.description
    let jobIdChanged := obs.jobId ≠ st.currentJobId
    let descriptionChanged := descriptionHash ≠ st.currentJobDescriptionHash
    if force = false ∧ ¬jobIdChanged ∧ ¬descriptionChanged ∧ st.badgePresent then
      (st, .noop)
    else if strFalsy obs.description then
      if force = false ∧ st.currentJobId = obs.jobId then (st, .noop)
      else (st, .retryScheduled 300)
    else
      ({ currentJobId := obs.jobId
       , currentJobDescriptionHash := descriptionHash
       , badgePresent := true
       , isProcessing := false }, .reclassified)

/-- The verdict rendered on the reclassify path (content.js:178). -/
def renderedVerdict (obs : PageObs) : Verdict :=
  match obs.description with
  | none => analyze .null
  | some t => analyze (.str t)

/-- `checkForJobChange` (content.js:228-245): when busy, drop; when job id
or fingerprint changed, clear identity/badge on an id change and force a
`processJobPage`; otherwise do nothing. -/
def checkForJobChange (st : MonitorState) (obs : PageObs) :
    MonitorState × MonAction :=
  if st.isProcessing then (st, .noop)
  else
    let descriptionHash := hashJobDescription obs.description
    if obs.jobId ≠ st.currentJobId ∨ descriptionHash ≠ st.currentJobDescriptionHash then
      let st' :=
        if obs.jobId ≠ st.currentJobId then
          { currentJobId := none
          , currentJobDescriptionHash := none
          , badgePresent := false
          , isProcessing := st.isProcessing }
        else st
      processJobPage true st' obs
    else (st, .noop)

/-- The decimal digit list of `n`, most significant first; shown below to
agree with core's fuelled `Nat.toDigits 10`. -/
def natDigits (n : Nat) : List Char :=
  if h : n / 10 = 0 then [Nat.digitChar (n % 10)]
  else natDigits (n / 10) ++ [Nat.digitChar (n % 10)]
decreasing_by
  have hn : n ≠ 0 := by
    intro h0
    exact h (by simp [h0])
  exact Nat.div_lt_self (Nat.pos_of_ne_zero hn) (by omega)

/-- Numeric value of a decimal digit character. -/
def digitVal (c : Char) : Nat := c.toNat - 48

/-- Value of a digit string, most significant first. -/
def digitsVal (l : List Char) : Nat :=
  l.foldl (fun a c => a * 10 + digitVal c) 0

/-! ## Helper lemmas -/

theorem mem_dedupFirst {x : List Char} :
    ∀ {l seen : List (List Char)}, x ∈ dedupFirst seen l ↔ x ∈ l ∧ x ∉ seen := by
  intro l
  induction l with
  | nil => intro seen; simp [dedupFirst]
  | cons y ys ih =>
    intro seen
    by_cases hy : y ∈ seen
    · rw [dedupFirst, if_pos hy, ih]
      constructor
      · rintro ⟨hx, hns⟩; exact ⟨List.mem_cons_of_mem _ hx, hns⟩
      · rintro ⟨hx, hns⟩
        rcases List.mem_cons.mp hx with rfl | hx'
        · exact absurd hy hns
        · exact ⟨hx', hns⟩
    · rw [dedupFirst, if_neg hy]
      constructor
      · intro hmem
        rcases List.mem_cons.mp hmem with rfl | hx'
        · exact ⟨List.mem_cons_self _ _, hy⟩
        · rcases ih.mp hx' with ⟨hx, hns⟩
          exact ⟨List.mem_cons_of_mem _ hx, fun hs => hns (List.mem_cons_of_mem _ hs)⟩
      · rintro ⟨hx, hns⟩
        rcases List.mem_cons.mp hx with rfl | hx'
        · exact List.mem_cons_self _ _
        · by_cases hxy : x = y
          · subst hxy; exact List.mem_cons_self _ _
          · refine List.mem_cons_of_mem _ (ih.mpr ⟨hx', fun hs => ?_⟩)
            exact (List.mem_cons.mp hs).elim hxy hns

theorem nodup_dedupFirst :
    ∀ (l seen : List (List Char)), (dedupFirst seen l).Nodup := by
  intro l
  induction l with
  | nil => intro seen; simp [dedupFirst]
  | cons y ys ih =>
    intro seen
    by_cases hy : y ∈ seen
    · simpa [dedupFirst, hy] using ih seen
    · simp only [dedupFirst, if_neg hy, List.nodup_cons]
      refine ⟨fun hmem => ?_, ih (y :: seen)⟩
      exact (mem_dedupFirst.mp hmem).2 (List.mem_cons_self _ _)

theorem sublist_dedupFirst :
    ∀ (l seen : List (List Char)), List.Sublist (dedupFirst seen l) l := by
  intro l
  induction l with
  | nil => intro seen; simp [dedupFirst]
  | cons y ys ih =>
    intro seen
    by_cases hy : y ∈ seen
    · simpa [dedupFirst, hy] using (ih seen).trans (List.sublist_cons_self y ys)
    · simpa [dedupFirst, hy] using List.Sublist.cons₂ y (ih (y :: seen))

theorem jsSetDedup_nodup (l : List (List Char)) : (jsSetDedup l).Nodup :=
  nodup_dedupFirst l []

theorem jsSetDedup_sublist (l : List (List Char)) : List.Sublist (jsSetDedup l) l :=
  sublist_dedupFirst l []

theorem mem_jsSetDedup {x : List Char} {l : List (List Char)} :
    x ∈ jsSetDedup l ↔ x ∈ l := by
  simp [jsSetDedup, mem_dedupFirst]

/-- Every match recorded by the scan loop carries, as its `text`, the
literal slice of the input it matched. -/
theorem scanFrom_text_slice :
    ∀ (f : Nat) (re : Re) (t : List Char) (i : Nat) (m : MatchInfo),
      m ∈ scanFrom f re t i → m.text = (t.drop m.index).take m.length := by
  intro f
  induction f with
  | zero => intro re t i m h; simp [scanFrom] at h
  | succ f ih =>
    intro re t i m h
    rw [scanFrom] at h
    split at h
    · simp at h
    · split at h
      · rcases List.mem_cons.mp h with rfl | h'
        · rfl
        · exact ih _ _ _ _ h'
      · exact ih _ _ _ _ h

/-- A take-of-drop slice is an infix of the original list. -/
theorem slice_infix (t : List Char) (a b : Nat) : (t.drop a).take b <:+: t := by
  have h1 := List.take_prefix b (t.drop a)
  have h2 := t.drop_suffix a
  exact h1.isInfix.trans h2.isInfix

/-- Every match produced by `findMatches` has, as text, an infix of the input. -/
theorem findMatches_text_infix {re : Re} {t : List Char} {m : MatchInfo}
    (h : m ∈ findMatches re t) : m.text <:+: t := by
  rw [scanFrom_text_slice _ _ _ _ _ h]
  exact slice_infix t m.index m.length

/-- Every match collected over a pattern catalogue has an infix text. -/
theorem allMatches_text_infix {pats : List Re} {t : List Char} {m : MatchInfo}
    (h : m ∈ allMatches pats t) : m.text <:+: t := by
  induction pats with
  | nil => simp [allMatches] at h
  | cons p ps ih =>
    simp only [allMatches, List.foldr_cons, List.mem_append] at h
    rcases h with h | h
    · exact findMatches_text_infix h
    · exact ih h

/-- On a non-empty string the falsiness guard is passed. -/
theorem analyze_str_of_ne {s : List Char} (h : s ≠ []) :
    analyze (.str s) = analyzeText s := by
  cases s with
  | nil => exact absurd rfl h
  | cons c cs => rfl

/-- The verdict's `details` field is `detailsOf` for every string input
(for the empty string both sides are four empty lists, since every
catalogue pattern requires at least one word character). -/
theorem analyze_str_details (s : List Char) :
    (analyze (.str s)).details = detailsOf s := by
  cases s with
  | nil => decide
  | cons c cs => rfl

/-- The verdict's `matchedKeywords` field is the deduplicated tier
concatenation for every string input. -/
theorem analyze_str_matchedKeywords (s : List Char) :
    (analyze (.str s)).matchedKeywords = jsSetDedup (allKeywordsOf (detailsOf s)) := by
  cases s with
  | nil => decide
  | cons c cs => rfl

theorem decideStatus_yes_high {d : Details} (h : d.strongPositive ≠ []) :
    (decideStatus d).1 = .yes ∧ (decideStatus d).2.2 = .high := by
  have : d.strongPositive.length > 0 := List.length_pos.mpr h
  simp [decideStatus, this]

theorem decideStatus_no_high {d : Details} (h1 : d.strongPositive = [])
    (h2 : d.strongNegative ≠ []) :
    (decideStatus d).1 = .no ∧ (decideStatus d).2.2 = .high := by
  have : d.strongNegative.length > 0 := List.length_pos.mpr h2
  simp [decideStatus, h1, this]

theorem decideStatus_yes_medium {d : Details} (h1 : d.strongPositive = [])
    (h2 : d.strongNegative = []) (h3 : d.moderatePositive ≠ []) :
    (decideStatus d).1 = .yes ∧ (decideStatus d).2.2 = .medium := by
  have : d.moderatePositive.length > 0 := List.length_pos.mpr h3
  simp [decideStatus, h1, h2, this]

theorem decideStatus_no_medium {d : Details} (h1 : d.strongPositive = [])
    (h2 : d.strongNegative = []) (h3 : d.moderatePositive = [])
    (h4 : d.moderateNegative ≠ []) :
    (decideStatus d).1 = .no ∧ (decideStatus d).2.2 = .medium := by
  have : d.moderateNegative.length > 0 := List.length_pos.mpr h4
  simp [decideStatus, h1, h2, h3, this]

theorem decideStatus_yes_low {d : Details} (h1 : d.strongPositive = [])
    (h2 : d.strongNegative = []) (h3 : d.moderatePositive = [])
    (h4 : d.moderateNegative = []) :
    (decideStatus d).1 = .yes ∧ (decideStatus d).2.2 = .low := by
  simp [decideStatus, h1, h2, h3, h4]

theorem decideStatus_yes_or_no (d : Details) :
    (decideStatus d).1 = .yes ∨ (decideStatus d).1 = .no := by
  unfold decideStatus
  split
  · exact Or.inl rfl
  split
  · exact Or.inr rfl
  split
  · exact Or.inl rfl
  split
  · exact Or.inr rfl
  · exact Or.inl rfl

/-! ## The claims -/

/-- C1: for every (usable) string input, `analyze` resolves status and
confidence by tier precedence in the fixed order: surviving
StrongPositive → yes/High (even when StrongNegative matches are present);
else StrongNegative → no/High; else surviving ModeratePositive →
yes/Medium; else ModerateNegative → no/Medium; else yes/Low. -/
theorem c1_tier_precedence (s : List Char) (hs : s ≠ []) :
    ((analyze (.str s)).details.strongPositive ≠ [] →
      (analyze (.str s)).status = .yes ∧ (analyze (.str s)).confidence = .high) ∧
    ((analyze (.str s)).details.strongPositive = [] →
      (analyze (.str s)).details.strongNegative ≠ [] →
      (analyze (.str s)).status = .no ∧ (analyze (.str s)).confidence = .high) ∧
    ((analyze (.str s)).details.strongPositive = [] →
      (analyze (.str s)).details.strongNegative = [] →
      (analyze (.str s)).details.moderatePositive ≠ [] →
      (analyze (.str s)).status = .yes ∧ (analyze (.str s)).confidence = .medium) ∧
    ((analyze (.str s)).details.strongPositive = [] →
      (analyze (.str s)).details.strongNegative = [] →
      (analyze (.str s)).details.moderatePositive = [] →
      (analyze (.str s)).details.moderateNegative ≠ [] →
      (analyze (.str s)).status = .no ∧ (analyze (.str s)).confidence = .medium) ∧
    ((analyze (.str s)).details.strongPositive = [] →
      (analyze (.str s)).details.strongNegative = [] →
      (analyze (.str s)).details.moderatePositive = [] →
      (analyze (.str s)).details.moderateNegative = [] →
      (analyze (.str s)).status = .yes ∧ (analyze (.str s)).confidence = .low) := by
  rw [analyze_str_of_ne hs]
  show ((detailsOf s).strongPositive ≠ [] → _) ∧ _
  exact
    ⟨fun h1 => decideStatus_yes_high h1,
     fun h1 h2 => decideStatus_no_high h1 h2,
     fun h1 h2 h3 => decideStatus_yes_medium h1 h2 h3,
     fun h1 h2 h3 h4 => decideStatus_no_medium h1 h2 h3 h4,
     fun h1 h2 h3 h4 => decideStatus_yes_low h1 h2 h3 h4⟩

/-- Witness for C1 on a concrete posting containing both a StrongPositive
phrase (`can sponsor`) and a StrongNegative phrase (`no sponsorship`):
positive precedence yields yes/High. -/
theorem c1_tier_precedence_witness :
    (analyze (.str ("can sponsor. no sponsorship".toList))).status = .yes ∧
    (analyze (.str ("can sponsor. no sponsorship".toList))).confidence = .high :=
  (c1_tier_precedence ("can sponsor. no sponsorship".toList) (by decide)).1 (by decide)

/-- C2: `analyze` is a total function (never throws), and each unusable
input — `null`, the empty string, a non-string value — yields status
`unclear`, confidence Low, and empty evidence. -/
theorem c2_invalid_input_unclear :
    (analyze .null).status = .unclear ∧ (analyze .null).confidence = .low ∧
      (analyze .null).matchedKeywords = [] ∧
    (analyze (.str [])).status = .unclear ∧ (analyze (.str [])).confidence = .low ∧
      (analyze (.str [])).matchedKeywords = [] ∧
    (analyze .nonString).status = .unclear ∧ (analyze .nonString).confidence = .low ∧
      (analyze .nonString).matchedKeywords = [] :=
  ⟨rfl, rfl, rfl, rfl, rfl, rfl, rfl, rfl, rfl⟩

/-- C5: a verdict can never pair status yes with StrongNegative evidence
unless StrongPositive evidence is present: whenever the strong-negative
list is non-empty and the strong-positive list is empty, the status is
not `yes`. -/
theorem c5_strong_negative_blocks_yes (v : JSInput)
    (h1 : (analyze v).details.strongNegative ≠ [])
    (h2 : (analyze v).details.strongPositive = []) :
    (analyze v).status ≠ .yes := by
  cases v with
  | null => exact absurd rfl h1
  | nonString => exact absurd rfl h1
  | str s =>
    cases s with
    | nil => exact absurd rfl h1
    | cons c cs =>
      have hd : (analyze (.str (c :: cs))).details = detailsOf (c :: cs) := rfl
      rw [hd] at h1 h2
      have := decideStatus_no_high h2 h1
      show (decideStatus (detailsOf (c :: cs))).1 ≠ .yes
      rw [this.1]
      intro hc
      exact Status.noConfusion hc

/-- Witness for C5 at the concrete StrongNegative-only posting
`no sponsorship`. -/
theorem c5_strong_negative_blocks_yes_witness :
    (analyze (.str ("no sponsorship".toList))).status ≠ .yes :=
  c5_strong_negative_blocks_yes (.str ("no sponsorship".toList)) (by decide) (by decide)

/-- C10: a non-empty string input never yields `unclear` — the status is
always yes or no — and `unclear` arises exactly for the invalid inputs
(`null`, empty string, non-string). -/
theorem c10_nonempty_commits_yes_or_no :
    (∀ s : List Char, s ≠ [] →
      (analyze (.str s)).status = .yes ∨ (analyze (.str s)).status = .no) ∧
    (∀ v : JSInput, (analyze v).status = .unclear ↔
      v = .null ∨ v = .nonString ∨ v = .str []) := by
  constructor
  · intro s hs
    rw [analyze_str_of_ne hs]
    exact decideStatus_yes_or_no (detailsOf s)
  · intro v
    cases v with
    | null => simp [analyze, unclearVerdict]
    | nonString => simp [analyze, unclearVerdict]
    | str s =>
      cases s with
      | nil => simp [analyze, unclearVerdict]
      | cons c cs =>
        simp only [JSInput.str.injEq, reduceCtorEq, or_false, false_or]
        constructor
        · intro h
          rcases decideStatus_yes_or_no (detailsOf (c :: cs)) with hy | hn
          · exact absurd (show (analyze (.str (c :: cs))).status = .yes from hy) (by
              rw [h]; intro hc; exact Status.noConfusion hc)
          · exact absurd (show (analyze (.str (c :: cs))).status = .no from hn) (by
              rw [h]; intro hc; exact Status.noConfusion hc)
        · intro h
          simp at h

/-- Witness for C10 at a concrete non-empty input with no indicators. -/
theorem c10_nonempty_commits_yes_or_no_witness :
    (analyze (.str ("abc".toList))).status = .yes ∨
      (analyze (.str ("abc".toList))).status = .no :=
  c10_nonempty_commits_yes_or_no.1 ("abc".toList) (by decide)

/-- C3: positive-tier matches are kept only when `isNegated` (negation cue
in the preceding ~50-character context, within a 20-character non-period
window of the match start) rejects them, while negative-tier matches are
never filtered; concretely, in `no sponsorship available` the
StrongPositive pattern `sponsorship available` does match the raw text
but is suppressed, and the verdict is `no`. -/
theorem c3_negation_window_suppression (s : List Char) :
    ((analyze (.str s)).details.strongPositive =
      ((allMatches STRONG_POSITIVE_PATTERNS s).filter
        (fun m => !(isNegated s m.index m.length))).map MatchInfo.text) ∧
    ((analyze (.str s)).details.moderatePositive =
      ((allMatches MODERATE_POSITIVE_PATTERNS s).filter
        (fun m => !(isNegated s m.index m.length))).map MatchInfo.text) ∧
    ((analyze (.str s)).details.strongNegative =
      (allMatches STRONG_NEGATIVE_PATTERNS s).map MatchInfo.text) ∧
    ((analyze (.str s)).details.moderateNegative =
      (allMatches MODERATE_NEGATIVE_PATTERNS s).map MatchInfo.text) ∧
    ((allMatches STRONG_POSITIVE_PATTERNS ("no sponsorship available".toList) ≠ []) ∧
      (analyze (.str ("no sponsorship available".toList))).details.strongPositive = [] ∧
      (analyze (.str ("no sponsorship available".toList))).status = .no) := by
  refine ⟨?_, ?_, ?_, ?_, by decide, by decide, by decide⟩ <;>
    rw [analyze_str_details s] <;> rfl

/-- C4: every evidence phrase in the verdict — `matchedKeywords`, the four
per-tier `details` lists, and the cited phrase the highlighter uses (the
first match of the deciding negative tier) — is a literal, verbatim
substring (infix) of the input; concretely, for a text containing only
the StrongNegative phrase `no sponsorship` the verdict is no/High and the
cited phrase is exactly that phrase. -/
theorem c4_evidence_verbatim (s : List Char) :
    (∀ x, x ∈ (analyze (.str s)).matchedKeywords → x <:+: s) ∧
    (∀ x, x ∈ (analyze (.str s)).details.strongPositive → x <:+: s) ∧
    (∀ x, x ∈ (analyze (.str s)).details.moderatePositive → x <:+: s) ∧
    (∀ x, x ∈ (analyze (.str s)).details.strongNegative → x <:+: s) ∧
    (∀ x, x ∈ (analyze (.str s)).details.moderateNegative → x <:+: s) ∧
    (∀ x, citedPhrase (analyze (.str s)) = some x → x <:+: s) ∧
    ((analyze (.str ("no sponsorship".toList))).status = .no ∧
      (analyze (.str ("no sponsorship".toList))).confidence = .high ∧
      citedPhrase (analyze (.str ("no sponsorship".toList))) =
        some ("no sponsorship".toList)) := by
  have hsp : ∀ x, x ∈ (detailsOf s).strongPositive → x <:+: s := by
    intro x hx
    simp only [detailsOf, List.mem_map, List.mem_filter] at hx
    obtain ⟨m, ⟨hm, _⟩, rfl⟩ := hx
    exact allMatches_text_infix hm
  have hmp : ∀ x, x ∈ (detailsOf s).moderatePositive → x <:+: s := by
    intro x hx
    simp only [detailsOf, List.mem_map, List.mem_filter] at hx
    obtain ⟨m, ⟨hm, _⟩, rfl⟩ := hx
    exact allMatches_text_infix hm
  have hsn : ∀ x, x ∈ (detailsOf s).strongNegative → x <:+: s := by
    intro x hx
    simp only [detailsOf, List.mem_map] at hx
    obtain ⟨m, hm, rfl⟩ := hx
    exact allMatches_text_infix hm
  have hmn : ∀ x, x ∈ (detailsOf s).moderateNegative → x <:+: s := by
    intro x hx
    simp only [detailsOf, List.mem_map] at hx
    obtain ⟨m, hm, rfl⟩ := hx
    exact allMatches_text_infix hm
  refine ⟨?_, ?_, ?_, ?_, ?_, ?_, by decide, by decide, by decide⟩
  · intro x hx
    rw [analyze_str_matchedKeywords s] at hx
    have := mem_jsSetDedup.mp hx
    simp only [allKeywordsOf, List.mem_append] at this
    rcases this with ((h | h) | h) | h
    · exact hsp x h
    · exact hmp x h
    · exact hsn x h
    · exact hmn x h
  · rw [analyze_str_details s]; exact hsp
  · rw [analyze_str_details s]; exact hmp
  · rw [analyze_str_details s]; exact hsn
  · rw [analyze_str_details s]; exact hmn
  · intro x hx
    unfold citedPhrase at hx
    rw [analyze_str_details s] at hx
    split at hx
    · split at hx
      · exact hsn x (List.mem_of_mem_head? (Option.mem_def.mpr hx))
      · exact hmn x (List.mem_of_mem_head? (Option.mem_def.mpr hx))
    · exact Option.noConfusion hx

/-- Witness for C4 instantiating the universally quantified substring
property at the concrete verdict for `no sponsorship`. -/
theorem c4_evidence_verbatim_witness :
    ("no sponsorship".toList) <:+: ("we offer no sponsorship".toList) :=
  (c4_evidence_verbatim ("we offer no sponsorship".toList)).1
    ("no sponsorship".toList) (by decide)

/-- C6: `matchedKeywords` is the insertion-ordered, first-occurrence
deduplication of the concatenation of the four surviving evidence lists
in catalogue-tier order; it has no duplicates, is an order-preserving
sublist of that concatenation, and contains exactly its elements. -/
theorem c6_matchedKeywords_dedup (s : List Char) :
    ((analyze (.str s)).matchedKeywords = jsSetDedup (allKeywordsOf (detailsOf s))) ∧
    (allKeywordsOf (detailsOf s) =
      (analyze (.str s)).details.strongPositive ++
        (analyze (.str s)).details.moderatePositive ++
        (analyze (.str s)).details.strongNegative ++
        (analyze (.str s)).details.moderateNegative) ∧
    (analyze (.str s)).matchedKeywords.Nodup ∧
    List.Sublist (analyze (.str s)).matchedKeywords (allKeywordsOf (detailsOf s)) ∧
    (∀ x, x ∈ (analyze (.str s)).matchedKeywords ↔ x ∈ allKeywordsOf (detailsOf s)) := by
  refine ⟨analyze_str_matchedKeywords s, ?_, ?_, ?_, ?_⟩
  · rw [analyze_str_details s]; rfl
  · rw [analyze_str_matchedKeywords s]; exact jsSetDedup_nodup _
  · rw [analyze_str_matchedKeywords s]; exact jsSetDedup_sublist _
  · intro x; rw [analyze_str_matchedKeywords s]; exact mem_jsSetDedup

/-- C7: for an idle monitor on a job page whose description is
extractable, an unforced `processJobPage` reclassifies iff the current
job id differs from the stored identity, or the content fingerprint
differs from the stored fingerprint, or the badge element is absent; and
when id, fingerprint and badge presence are all unchanged it does
nothing and leaves the stored identity untouched. -/
theorem c7_change_detection_decision (st : MonitorState) (obs : PageObs)
    (hidle : st.isProcessing = false) (hpage : obs.onJobPage = true)
    (hdesc : strFalsy obs.description = false) :
    ((processJobPage false st obs).2 = .reclassified ↔
      (obs.jobId ≠ st.currentJobId ∨
        hashJobDescription obs.description ≠ st.currentJobDescriptionHash ∨
        st.badgePresent = false)) ∧
    (obs.jobId = st.currentJobId →
      hashJobDescription obs.description = st.currentJobDescriptionHash →
      st.badgePresent = true →
      processJobPage false st obs = (st, .noop)) := by
  constructor
  · by_cases h1 : obs.jobId = st.currentJobId <;>
      by_cases h2 : hashJobDescription obs.description = st.currentJobDescriptionHash <;>
      by_cases h3 : st.badgePresent <;>
      simp [processJobPage, hidle, hpage, hdesc, h1, h2, h3]
  · intro h1 h2 h3
    simp [processJobPage, hidle, hpage, hdesc, h1, h2, h3]

/-- Witness for C7: stored id `some "1"`, current id `some "2"`,
extractable description ⇒ reclassification. -/
theorem c7_change_detection_decision_witness :
    (processJobPage false
        ⟨some "1", none, true, false⟩ ⟨true, some "2", some ['a']⟩).2 =
      .reclassified :=
  ((c7_change_detection_decision ⟨some "1", none, true, false⟩
      ⟨true, some "2", some ['a']⟩ rfl rfl rfl).1).mpr (Or.inl (by decide))

/-- Counterexample to C8 as stated: with stored job id `some "111"` and a
currently unreadable description for job `some "222"`, the unforced
monitor *does* schedule the retry although the job id has changed —
the retry is scheduled precisely when the id is NOT unchanged, the
opposite of the claimed condition. -/
theorem c8_counterexample :
    (processJobPage false
        ⟨some "111", some ['h'], true, false⟩ ⟨true, some "222", none⟩).2 =
      .retryScheduled 300 ∧
    (⟨true, some "222", none⟩ : PageObs).jobId ≠
      (⟨some "111", some ['h'], true, false⟩ : MonitorState).currentJobId := by
  constructor
  · decide
  · decide

/-- C8 (amended): when the description is not extractable, an unforced
`processJobPage` schedules exactly one retry (300 ms) iff the current job
id differs from the stored job id; with an unchanged id it returns
without scheduling.  The retry leaves the stored state untouched, so a
description that never becomes extractable while the id stays different
keeps scheduling further retries — retries are spaced, not bounded. -/
theorem processJobPage_state_cases (force : Bool) (st : MonitorState) (obs : PageObs) :
    (processJobPage force st obs).1 = st ∨
      (processJobPage force st obs).2 = .reclassified := by
  unfold processJobPage
  by_cases hA : st.isProcessing = true ∧ force = false
  · simp [hA]
  by_cases hB : obs.onJobPage = false
  · simp [hA, hB]
  by_cases hC : force = false ∧ obs.jobId = st.currentJobId ∧
      hashJobDescription obs.description = st.currentJobDescriptionHash ∧
      st.badgePresent = true
  · simp [hA, hB, hC]
  by_cases hD : strFalsy obs.description = true
  · by_cases hE : force = false ∧ st.currentJobId = obs.jobId <;>
      simp [hA, hB, hC, hD, hE]
  · simp [hA, hB, hC, hD]

theorem c8_retry_iff_changed_id (st : MonitorState) (obs : PageObs)
    (hidle : st.isProcessing = false) (hpage : obs.onJobPage = true) :
    ((processJobPage false st obs).2 = .retryScheduled 300 ↔
      (strFalsy obs.description = true ∧ obs.jobId ≠ st.currentJobId)) ∧
    ((processJobPage false st obs).2 = .retryScheduled 300 →
      (processJobPage false st obs).1 = st) := by
  constructor
  · by_cases h1 : st.currentJobId = obs.jobId
    · have h1b : obs.jobId = st.currentJobId := h1.symm
      by_cases h0 : strFalsy obs.description = true <;>
        by_cases h2 : hashJobDescription obs.description = st.currentJobDescriptionHash <;>
        by_cases h3 : st.badgePresent <;>
        simp [processJobPage, hidle, hpage, h0, h1b, h2, h3]
    · have h1b : ¬obs.jobId = st.currentJobId := fun e => h1 e.symm
      by_cases h0 : strFalsy obs.description = true <;>
        by_cases h2 : hashJobDescription obs.description = st.currentJobDescriptionHash <;>
        by_cases h3 : st.badgePresent <;>
        simp [processJobPage, hidle, hpage, h0, h1, h1b, h2, h3]
  · intro h
    rcases processJobPage_state_cases false st obs with hst | hrec
    · exact hst
    · exact MonAction.noConfusion (hrec.symm.trans h)

/-- Witness for the amended C8 at the concrete flapping-id situation. -/
theorem c8_retry_iff_changed_id_witness :
    (processJobPage false
        ⟨some "aaa", none, false, false⟩ ⟨true, some "bbb", none⟩).2 =
      .retryScheduled 300 :=
  ((c8_retry_iff_changed_id ⟨some "aaa", none, false, false⟩
      ⟨true, some "bbb", none⟩ rfl rfl).1).mpr (by decide)

/-! ### Decimal digits: `Nat.toDigits 10` agrees with `natDigits` -/

theorem toDigitsCore_eq_natDigits :
    ∀ (f n : Nat) (ds : List Char), n < f →
      Nat.toDigitsCore 10 f n ds = natDigits n ++ ds := by
  intro f
  induction f with
  | zero => intro n ds h; omega
  | succ f ih =>
    intro n ds h
    simp only [Nat.toDigitsCore]
    by_cases h10 : n / 10 = 0
    · rw [if_pos h10, natDigits, dif_pos h10]
      rfl
    · rw [if_neg h10, natDigits, dif_neg h10]
      have hpos : 0 < n := by
        rcases Nat.eq_zero_or_pos n with rfl | hp
        · exact absurd (by norm_num) h10
        · exact hp
      have hdiv : n / 10 < n := Nat.div_lt_self hpos (by omega)
      have hlt : n / 10 < f := by omega
      rw [ih (n / 10) (Nat.digitChar (n % 10) :: ds) hlt]
      simp [List.append_assoc]

theorem toDigits_eq_natDigits (n : Nat) : Nat.toDigits 10 n = natDigits n := by
  have h := toDigitsCore_eq_natDigits (n + 1) n [] (by omega)
  simpa [Nat.toDigits] using h

theorem digitVal_digitChar : ∀ m, m < 10 → digitVal (Nat.digitChar m) = m := by
  decide

theorem digitChar_ne_bar : ∀ m, m < 10 → Nat.digitChar m ≠ '|' := by
  decide

theorem foldl_digitVal_natDigits (n : Nat) :
    ∀ acc, List.foldl (fun a c => a * 10 + digitVal c) acc (natDigits n) =
      acc * 10 ^ (natDigits n).length + n := by
  induction n using Nat.strong_induction_on with
  | _ n ih =>
    intro acc
    by_cases h10 : n / 10 = 0
    · rw [natDigits, dif_pos h10]
      have h1 : n % 10 < 10 := by omega
      have h2 : n % 10 = n := by omega
      simp only [List.foldl_cons, List.foldl_nil, List.length_singleton, pow_one]
      rw [digitVal_digitChar _ h1, h2]
    · rw [natDigits, dif_neg h10]
      have hpos : 0 < n := by
        rcases Nat.eq_zero_or_pos n with rfl | hp
        · exact absurd (by norm_num) h10
        · exact hp
      have hdiv : n / 10 < n := Nat.div_lt_self hpos (by omega)
      rw [List.foldl_append, ih (n / 10) hdiv acc]
      simp only [List.foldl_cons, List.foldl_nil, List.length_append,
        List.length_singleton]
      rw [digitVal_digitChar _ (by omega : n % 10 < 10)]
      calc (acc * 10 ^ (natDigits (n / 10)).length + n / 10) * 10 + n % 10
          = acc * (10 ^ (natDigits (n / 10)).length * 10) +
              (10 * (n / 10) + n % 10) := by ring
        _ = acc * 10 ^ ((natDigits (n / 10)).length + 1) + n := by
              rw [Nat.div_add_mod, pow_succ]

theorem digitsVal_natDigits (n : Nat) : digitsVal (natDigits n) = n := by
  have h := foldl_digitVal_natDigits n 0
  simpa [digitsVal] using h

theorem natDigits_inj {a b : Nat} (h : natDigits a = natDigits b) : a = b := by
  have ha := digitsVal_natDigits a
  have hb := digitsVal_natDigits b
  rw [← ha, ← hb, h]

theorem bar_not_mem_natDigits (n : Nat) : ('|' : Char) ∉ natDigits n := by
  induction n using Nat.strong_induction_on with
  | _ n ih =>
    by_cases h10 : n / 10 = 0
    · rw [natDigits, dif_pos h10]
      intro hmem
      exact digitChar_ne_bar (n % 10) (by omega) (List.mem_singleton.mp hmem).symm
    · rw [natDigits, dif_neg h10]
      intro hmem
      have hpos : 0 < n := by
        rcases Nat.eq_zero_or_pos n with rfl | hp
        · exact absurd (by norm_num) h10
        · exact hp
      rcases List.mem_append.mp hmem with h | h
      · exact ih (n / 10) (Nat.div_lt_self hpos (by omega)) h
      · exact digitChar_ne_bar (n % 10) (by omega) (List.mem_singleton.mp h).symm

/-- Splitting at the first occurrence of `c` is unambiguous. -/
theorem append_cons_inj_of_not_mem {c : Char} :
    ∀ (u1 : List Char) {v1 u2 v2 : List Char}, c ∉ u1 → c ∉ u2 →
      u1 ++ c :: v1 = u2 ++ c :: v2 → u1 = u2 ∧ v1 = v2 := by
  intro u1
  induction u1 with
  | nil =>
    intro v1 u2 v2 _ hc2 h
    cases u2 with
    | nil => simpa using h
    | cons y ys =>
      simp only [List.nil_append, List.cons_append, List.cons.injEq] at h
      exact absurd (h.1 ▸ List.mem_cons_self y ys) hc2
  | cons x xs ih =>
    intro v1 u2 v2 hc1 hc2 h
    cases u2 with
    | nil =>
      simp only [List.cons_append, List.nil_append, List.cons.injEq] at h
      exact absurd (h.1.symm ▸ List.mem_cons_self x xs) hc1
    | cons y ys =>
      simp only [List.cons_append, List.cons.injEq] at h
      have hc1' : c ∉ xs := fun hm => hc1 (List.mem_cons_of_mem _ hm)
      have hc2' : c ∉ ys := fun hm => hc2 (List.mem_cons_of_mem _ hm)
      obtain ⟨h1, h2⟩ := ih hc1' hc2' h.2
      exact ⟨by rw [h.1, h1], h2⟩

/-- Splitting at the last occurrence of `c` (no `c` in the tails) is
unambiguous. -/
theorem append_cons_inj_of_not_mem_right {c : Char} {p1 p2 d1 d2 : List Char}
    (h1 : c ∉ d1) (h2 : c ∉ d2)
    (h : p1 ++ c :: d1 = p2 ++ c :: d2) : p1 = p2 ∧ d1 = d2 := by
  have hr : d1.reverse ++ c :: p1.reverse = d2.reverse ++ c :: p2.reverse := by
    have hrev := congrArg List.reverse h
    simpa [List.reverse_append, List.append_assoc] using hrev
  have h1' : c ∉ d1.reverse := by simpa using h1
  have h2' : c ∉ d2.reverse := by simpa using h2
  obtain ⟨hd, hp⟩ := append_cons_inj_of_not_mem d1.reverse h1' h2' hr
  constructor
  · have := congrArg List.reverse hp
    simpa using this
  · have := congrArg List.reverse hd
    simpa using this

set_option maxRecDepth 4000 in
/-- Counterexample to C9 as stated: two different 201-character texts that
agree on the first 200 characters and on length share a fingerprint. -/
theorem c9_counterexample :
    hashJobDescription (some (List.replicate 200 'a' ++ ['b'])) =
        hashJobDescription (some (List.replicate 200 'a' ++ ['c'])) ∧
      List.replicate 200 'a' ++ ['b'] ≠ List.replicate 200 'a' ++ ['c'] := by
  constructor
  · decide
  · decide

/-- C9 (amended): the fingerprint is a complete invariant for the pair
(trimmed 200-character prefix, total length): two description texts share
a fingerprint iff they agree on both — so fingerprint equality does not
imply text equality (texts differing only beyond the 200th character
collide), but any change in length or in the trimmed bounded prefix is
detected. -/
theorem c9_fingerprint_characterization (t1 t2 : List Char) :
    hashJobDescription (some t1) = hashJobDescription (some t2) ↔
      (jsTrim (t1.take 200) = jsTrim (t2.take 200) ∧ t1.length = t2.length) := by
  cases t1 with
  | nil =>
    cases t2 with
    | nil => simp
    | cons c2 cs2 => simp [hashJobDescription]
  | cons c1 cs1 =>
    cases t2 with
    | nil => simp [hashJobDescription]
    | cons c2 cs2 =>
      simp only [hashJobDescription, List.isEmpty_cons, Bool.false_eq_true,
        if_false, Option.some.injEq]
      rw [toDigits_eq_natDigits, toDigits_eq_natDigits]
      constructor
      · intro h
        obtain ⟨hp, hd⟩ := append_cons_inj_of_not_mem_right
          (bar_not_mem_natDigits _) (bar_not_mem_natDigits _) h
        exact ⟨hp, natDigits_inj hd⟩
      · rintro ⟨hp, hl⟩
        rw [hp, hl]

end H1B
